import Mathlib

set_option maxRecDepth 8000

namespace HackInterview

/-! # Verification of the session telemetry and report-synthesis pipeline

Shallow embedding of the logic of the interview-assistant repository:
the JSON extraction and parsing performed by the generate-report route,
the webhook code-update route (in-memory session store, POST and GET
handlers), the client-side debounced webhook sender, the editor's
delivery-status indicator, and the report page's synthesis pipeline.
Strings are modelled as `List Char`. -/

/-- Whitespace test used when modelling JSON token skipping and the
JavaScript `trim` calls in the report route (space, newline, tab,
carriage return). -/
def isWs (c : Char) : Bool :=
  c = ' ' || c = '\n' || c = '\t' || c = '\r'

/-- JSON values as produced by the `JSON.parse` call in the report route.
Numbers are modelled as integers (the route's validation concerns are
integer scores) and strings as escape-free character lists. -/
inductive Json where
  | null : Json
  | bool (b : Bool) : Json
  | num (n : Int) : Json
  | str (cs : List Char) : Json
  | arr (xs : List Json) : Json
  | obj (fields : List (List Char × Json)) : Json

/-- Body of a JSON string literal after its opening quote: plain
characters up to the closing quote. Escape sequences and control
characters are outside the modelled fragment and fail the parse. -/
def scanString : List Char → Option (List Char × List Char)
  | [] => none
  | c :: r =>
    if c = '"' then some ([], r)
    else if c = '\\' || c.toNat < 32 then none
    else
      match scanString r with
      | some (cs, rest) => some (c :: cs, rest)
      | none => none

/-- Decimal value of a digit run. -/
def digitsVal (ds : List Char) : Nat :=
  ds.foldl (fun a c => a * 10 + (c.toNat - ('0').toNat)) 0

mutual

/-- Model of `JSON.parse` on the fragment of JSON the report route works
with: objects, arrays, integer numbers, escape-free strings, booleans and
null, with whitespace skipping between tokens. The fuel argument bounds
recursion depth; the top-level entry point supplies enough for any input. -/
def parseVal : Nat → List Char → Option (Json × List Char)
  | 0, _ => none
  | fuel + 1, s =>
    match s.dropWhile isWs with
    | '\x7b' :: r =>
      match r.dropWhile isWs with
      | '\x7d' :: r2 => some (.obj [], r2)
      | r2 => parseMembers fuel r2 []
    | '[' :: r =>
      match r.dropWhile isWs with
      | ']' :: r2 => some (.arr [], r2)
      | r2 => parseElems fuel r2 []
    | '"' :: r =>
      match scanString r with
      | some (cs, rest) => some (.str cs, rest)
      | none => none
    | 't' :: 'r' :: 'u' :: 'e' :: r => some (.bool true, r)
    | 'f' :: 'a' :: 'l' :: 's' :: 'e' :: r => some (.bool false, r)
    | 'n' :: 'u' :: 'l' :: 'l' :: r => some (.null, r)
    | '-' :: r =>
      let ds := r.takeWhile Char.isDigit
      if ds.isEmpty then none
      else some (.num (-(digitsVal ds : Int)), r.drop ds.length)
    | c :: r =>
      if c.isDigit then
        let ds := (c :: r).takeWhile Char.isDigit
        some (.num ((digitsVal ds : Nat) : Int), (c :: r).drop ds.length)
      else none
    | [] => none

/-- Member loop of the object parser: positioned at the key of the next
`"key": value` pair, accumulating parsed fields in order. -/
def parseMembers : Nat → List Char → List (List Char × Json) → Option (Json × List Char)
  | 0, _, _ => none
  | fuel + 1, s, acc =>
    match s with
    | '"' :: r =>
      match scanString r with
      | some (k, r2) =>
        match r2.dropWhile isWs with
        | ':' :: r3 =>
          match parseVal fuel r3 with
          | some (v, r4) =>
            match r4.dropWhile isWs with
            | ',' :: r5 => parseMembers fuel (r5.dropWhile isWs) (acc ++ [(k, v)])
            | '\x7d' :: r5 => some (.obj (acc ++ [(k, v)]), r5)
            | _ => none
          | none => none
        | _ => none
      | none => none
    | _ => none

/-- Element loop of the array parser. -/
def parseElems : Nat → List Char → List Json → Option (Json × List Char)
  | 0, _, _ => none
  | fuel + 1, s, acc =>
    match parseVal fuel s with
    | some (v, r) =>
      match r.dropWhile isWs with
      | ',' :: r2 => parseElems fuel r2 (acc ++ [v])
      | ']' :: r2 => some (.arr (acc ++ [v]), r2)
      | _ => none
    | none => none

end

/-- Model of a successful `JSON.parse` call: parse one value and require
only whitespace to remain. -/
def Json.parse (s : List Char) : Option Json :=
  match parseVal (s.length + 1) s with
  | some (v, rest) => if (rest.dropWhile isWs).isEmpty then some v else none
  | none => none

/-! ## Extraction of the JSON span from the generator response

Model of lines 86–104 of the generate-report route: first the two fenced
code-block regexes, then the first-brace-to-last-brace span. -/

/-- Does `pat` occur in `s` starting at index `i`? -/
def matchAt (pat s : List Char) (i : Nat) : Bool :=
  (s.drop i).take pat.length == pat

/-- Linear scan for the first occurrence of `pat` at an index `≥ i`,
with a countdown bounding the scan. -/
def findSubAux (pat s : List Char) : Nat → Nat → Option Nat
  | 0, _ => none
  | n + 1, i => if matchAt pat s i then some i else findSubAux pat s n (i + 1)

/-- Index of the first occurrence of `pat` in `s`. -/
def findSub (pat s : List Char) : Option Nat :=
  findSubAux pat s (s.length + 1) 0

/-- The three-backtick fence marker. -/
def ticks : List Char := ['`', '`', '`']

/-- Opening marker of the first regex, ` ```json `. -/
def ticksJson : List Char := ticks ++ ['j', 's', 'o', 'n']

/-- Closing fence pattern `"\n```"` shared by both regexes. -/
def closeFence : List Char := '\n' :: ticks

/-- One attempt of the fenced-block regex at an opener occurrence `i`:
the `\s*\n` part chooses, greedily with backtracking, a whitespace run
ending at a newline, and the lazy body extends to the first following
`closeFence`. Returns the regex group (the fenced body). -/
def tryFenceAt (s : List Char) (olen i : Nat) : Option (List Char) :=
  (((List.range ((s.drop (i + olen)).takeWhile isWs).length).filter
      (fun k => (s.drop (i + olen)).get? k == some '\n')).reverse).findSome?
    (fun k =>
      match findSub closeFence (s.drop (i + olen + k + 1)) with
      | some m => some ((s.take (i + olen + k + 1 + m)).drop (i + olen + k + 1))
      | none => none)

/-- Model of `responseText.match(/<opener>\s*\n([\s\S]*?)\n```/)`: try
opener occurrences left to right, returning the first group the fence
pattern yields. -/
def fenceMatch (opener s : List Char) : Option (List Char) :=
  ((List.range (s.length + 1)).filter (fun i => matchAt opener s i)).findSome?
    (fun i => tryFenceAt s opener.length i)

/-- Model of the JavaScript `trim` call. -/
def trimChars (s : List Char) : List Char :=
  ((s.dropWhile isWs).reverse.dropWhile isWs).reverse

/-- Lines 86–92 of the report route: prefer a ```json fenced block, then
a plain ``` fenced block, else the whole response; the chosen text is
trimmed. -/
def stripFence (s : List Char) : List Char :=
  match fenceMatch ticksJson s with
  | some g => trimChars g
  | none =>
    match fenceMatch ticks s with
    | some g => trimChars g
    | none => trimChars s

/-- Lines 94–99 of the report route: `indexOf('{')`, `lastIndexOf('}')`
and, when both exist with the end strictly after the start, the substring
spanning them (braces included). -/
def braceSpan (t : List Char) : Option (List Char) :=
  match findSub ['\x7b'] t, findSub ['\x7d'] t.reverse with
  | some i, some ir =>
    let e := t.length - 1 - ir
    if i < e then some ((t.take (e + 1)).drop i) else none
  | _, _ => none

/-- The complete extraction step of the route: fence stripping followed
by the brace span; `none` models the `No JSON object found` throw. -/
def extractJsonSpan (s : List Char) : Option (List Char) :=
  braceSpan (stripFence s)

/-- Outcome of the generate-report route's response handling. -/
inductive ReportResult where
  | ok (report : Json) : ReportResult
  | parseError (rawPreview : List Char) : ReportResult

/-- Lines 83–120 of the report route: extract a candidate span and
`JSON.parse` it; on any failure answer the 500 `Failed to parse report`
response carrying `responseText.substring(0, 1000)` as diagnostics. -/
def parseReportResponse (responseText : List Char) : ReportResult :=
  match extractJsonSpan responseText with
  | some span =>
    match Json.parse span with
    | some j => .ok j
    | none => .parseError (responseText.take 1000)
  | none => .parseError (responseText.take 1000)

/-- HTTP status attached to each report outcome. -/
def reportHttpStatus : ReportResult → Nat
  | .ok _ => 200
  | .parseError _ => 500

/-- Field lookup in a JSON object; `none` on other values. -/
def jlookup (j : Json) (k : List Char) : Option Json :=
  match j with
  | .obj fields => fields.lookup k
  | _ => none

/-- Modelled from the spec: one criterion of the EvaluationReport
invariant — the grades object carries the named criterion with an
integer score in [1,10]. The route itself never performs this check. -/
def criterionOk (grades : Json) (name : List Char) : Bool :=
  match jlookup grades name with
  | some g =>
    match jlookup g (("score").toList) with
    | some (.num n) => 1 ≤ n && n ≤ 10
    | _ => false
  | _ => false

/-- Modelled from the spec: the EvaluationReport validity invariant over
the fixed criterion set, under the camel-case keys of the route's schema. -/
def validReport (r : Json) : Bool :=
  match jlookup r (("grades").toList) with
  | some grades =>
    criterionOk grades (("codingSkills").toList) &&
    criterionOk grades (("communication").toList) &&
    criterionOk grades (("algorithmicThinking").toList)
  | none => false

/-! ## The webhook code-update route

Model of `app/api/webhook/code-update/route.ts`: the module-level
`codeStore : Map<string, StoredCode>` and the POST and GET handlers.
The request's `x-api-key` header, the `WEBHOOK_API_KEY` environment
variable, body fields and the `sessionId` query parameter are modelled
as `Option String` (`none` = absent / null / undefined). -/

/-- The `StoredCode` interface of the route; `lastUpdated` is the
server-observed clock value stamped at `put` time. -/
structure StoredCode where
  code : String
  language : String
  timestamp : String
  userId : Option String
  lastUpdated : Nat
deriving DecidableEq

/-- The in-memory `codeStore` map, as an insertion-ordered association
list (the semantics of a JavaScript `Map`). -/
abbrev Store := List (String × StoredCode)

/-- `Map.set`: overwrite an existing key in place, else append. -/
def mapSet (k : String) (v : StoredCode) : Store → Store
  | [] => [(k, v)]
  | (k', v') :: rest => if k' = k then (k, v) :: rest else (k', v') :: mapSet k v rest

/-- `Map.get`: the value stored at a key. -/
def mapGet (k : String) : Store → Option StoredCode
  | [] => none
  | (k', v') :: rest => if k' = k then some v' else mapGet k rest

/-- `Array.from(codeStore.keys())`: the known session ids in insertion
order. -/
def mapKeys (st : Store) : List String :=
  st.map (fun e => e.1)

/-- JavaScript falsiness of an optional string: absent (`undefined` /
`null`) or the empty string. -/
def falsy : Option String → Bool
  | none => true
  | some s => s = ""

/-- The route's API-key guard `expectedKey && apiKey !== expectedKey`:
passes when no key is configured (unset or empty environment variable)
or when the header matches exactly. -/
def keyOk (expectedKey apiKey : Option String) : Bool :=
  match expectedKey with
  | none => true
  | some s => s = "" || apiKey == some s

/-- Parsed JSON body of a POST request; each field may be absent. -/
structure PostBody where
  code : Option String
  language : Option String
  timestamp : Option String
  sessionId : Option String
  userId : Option String
deriving DecidableEq

/-- Responses of the POST handler (status 401, 400, 200). -/
inductive PostResponse where
  | unauthorized : PostResponse
  | badRequest : PostResponse
  | okReceived (sessionId : String) : PostResponse
deriving DecidableEq

/-- HTTP status of each POST response. -/
def postHttpStatus : PostResponse → Nat
  | .unauthorized => 401
  | .badRequest => 400
  | .okReceived _ => 200

/-- The POST handler (route lines 25–147): API-key guard, falsiness
validation of the four required fields, then `codeStore.set` stamping
`lastUpdated` with the server clock `now`. Returns the response and the
store after the request. -/
def postHandler (expectedKey apiKey : Option String) (body : PostBody) (now : Nat)
    (store : Store) : PostResponse × Store :=
  if keyOk expectedKey apiKey = false then (.unauthorized, store)
  else
    match body.code, body.language, body.timestamp, body.sessionId with
    | some c, some l, some t, some sid =>
      if c = "" || l = "" || t = "" || sid = "" then (.badRequest, store)
      else (.okReceived sid, mapSet sid ⟨c, l, t, body.userId, now⟩ store)
    | _, _, _, _ => (.badRequest, store)

/-- Responses of the GET handler (status 200 index, 401, 404, 200). -/
inductive GetResponse where
  | index (totalSessions : Nat) (sessions : List String) : GetResponse
  | unauthorized : GetResponse
  | notFound (availableSessions : List String) : GetResponse
  | okStored (sessionId : String) (stored : StoredCode) : GetResponse
deriving DecidableEq

/-- HTTP status of each GET response. -/
def getHttpStatus : GetResponse → Nat
  | .index _ _ => 200
  | .unauthorized => 401
  | .notFound _ => 404
  | .okStored _ _ => 200

/-- The GET handler (route lines 165–240): a falsy `sessionId` query
parameter answers the index metadata before any API-key check; otherwise
the key is checked, then the store consulted, a miss answering 404 with
`availableSessions`. -/
def getHandler (expectedKey apiKey : Option String) (sessionId : Option String)
    (store : Store) : GetResponse :=
  match sessionId with
  | none => .index store.length (mapKeys store)
  | some sid =>
    if sid = "" then .index store.length (mapKeys store)
    else if keyOk expectedKey apiKey = false then .unauthorized
    else
      match mapGet sid store with
      | none => .notFound (mapKeys store)
      | some st => .okStored sid st

/-! ## The debounced webhook sender

Model of `createDebouncedWebhook` (lib/webhook.ts): a burst of calls is
a time-stamped list, and the semantics of clear-and-reschedule under the
single-threaded timer model is the list of `sendCodeUpdate` invocations
it produces. -/

/-- The `WebhookPayload` interface of lib/webhook.ts. -/
structure WebhookPayload where
  code : String
  language : String
  timestamp : String
  sessionId : Option String
  userId : Option String
deriving DecidableEq

/-- `WEBHOOK_DEBOUNCE_DELAY` from lib/webhook-config.ts. -/
def WEBHOOK_DEBOUNCE_DELAY : Nat := 2000

/-- Deliveries produced by a time-ordered list of calls to the debounced
sender with quiescence window `W`: each call cancels the pending timer
and schedules `sendCodeUpdate` of its payload `W` later; a timer
survives exactly when the next call arrives strictly after it fires (at
an exact tie we model the pending timer as already fired). The result
lists each `sendCodeUpdate` invocation as (fire time, payload). -/
def deliveries (W : Nat) : List (Nat × WebhookPayload) → List (Nat × WebhookPayload)
  | [] => []
  | [(t, p)] => [(t + W, p)]
  | (t, p) :: (t', p') :: rest =>
    (if t + W ≤ t' then [(t + W, p)] else []) ++ deliveries W ((t', p') :: rest)

/-- A burst: calls in time order with every gap strictly below `W`. -/
def burstGaps (W : Nat) : List (Nat × WebhookPayload) → Bool
  | [] => true
  | [_] => true
  | (t, _) :: (t', p') :: rest => (t ≤ t' && t' < t + W) && burstGaps W ((t', p') :: rest)

/-! ## The editor's delivery-status indicator

Model of CodeEditor.tsx lines 29–52: after an edit the component
schedules three timers — `sending` at 0 ms, `sent` at
`WEBHOOK_DEBOUNCE_DELAY + 500` ms and `idle` at
`WEBHOOK_DEBOUNCE_DELAY + 1500` ms — none of which consults the
delivery's outcome. The `outcome` argument stands for whether the
underlying `sendCodeUpdate` succeeded; the code never wires it into the
status value, and the model reflects that by ignoring it. -/

/-- The `webhookStatus` state values of CodeEditor.tsx. -/
inductive WebhookStatus where
  | idle : WebhookStatus
  | sending : WebhookStatus
  | sent : WebhookStatus
  | error : WebhookStatus
deriving DecidableEq

/-- Status shown `ms` milliseconds after the last edit (with no further
edits), for a delivery with the given outcome. -/
def webhookStatusAt (_outcome : Bool) (ms : Nat) : WebhookStatus :=
  if ms < WEBHOOK_DEBOUNCE_DELAY + 500 then .sending
  else if ms < WEBHOOK_DEBOUNCE_DELAY + 1500 then .sent
  else .idle

/-- `sendCodeUpdate`'s boolean result (lib/webhook.ts lines 106–149):
false when the webhook is disabled or has no URL, false on a non-2xx
response or network error, true on success. -/
def sendCodeUpdateResult (enabled : Bool) (hasUrl : Bool) (httpOk : Bool) : Bool :=
  if !enabled || !hasUrl then false else httpOk

/-! ## The report page's synthesis pipeline

Model of the `generateReport` function of the report page: fetch the
stored snapshot (tolerating absence), fetch the transcript (failure or a
falsy `transcript` field is fatal), build the composite context, and
invoke the generator. Upstream outcomes are parameters standing for the
environment's responses. -/

/-- Response body of the transcript fetch. -/
structure TranscriptResp where
  transcript : Option String
deriving DecidableEq

/-- The optional code section appended to the transcript context when a
snapshot with truthy `code` was retrieved. -/
def buildContext (transcript : String) (codeData : Option StoredCode) : String :=
  match codeData with
  | some cd =>
    if cd.code = "" then transcript
    else
      transcript ++ "\n\n--- Code Written During Interview ---\nLanguage: " ++
        cd.language ++ "\n\n" ++ cd.code
  | none => transcript

/-- The report page pipeline: `codeFetch` is the snapshot lookup result
(`none` for a non-ok response, consulted only under a truthy session
id), `transcriptFetch` the transcript response (`none` for a non-ok
response), and `reportGen` the generate-report call on the composite
context (`none` for a non-ok response). -/
def generateReportPage (sid : Option String) (codeFetch : Option StoredCode)
    (transcriptFetch : Option TranscriptResp) (reportGen : String → Option Json) :
    Except String Json :=
  let codeData :=
    match sid with
    | some s => if s = "" then none else codeFetch
    | none => none
  match transcriptFetch with
  | none => .error "Failed to fetch transcript"
  | some td =>
    match td.transcript with
    | none => .error "No transcript available"
    | some tr =>
      if tr = "" then .error "No transcript available"
      else
        match reportGen (buildContext tr codeData) with
        | none => .error "Failed to generate report"
        | some r => .ok r

/-- Concrete payload of the first edit in the spec's two-edit scenario. -/
def payloadA : WebhookPayload :=
  ⟨"code at t=0", "javascript", "2024-01-01T00:00:00.000Z", some "s1", none⟩

/-- Concrete payload of the second edit in the spec's two-edit scenario. -/
def payloadB : WebhookPayload :=
  ⟨"code at t=500", "javascript", "2024-01-01T00:00:00.500Z", some "s1", none⟩

/-! ## Store lemmas -/

theorem mapGet_mapSet (k : String) (v : StoredCode) :
    ∀ st : Store, mapGet k (mapSet k v st) = some v
  | [] => by simp [mapSet, mapGet]
  | (k', v') :: rest => by
    by_cases h : k' = k
    · simp [mapSet, mapGet, h]
    · simp [mapSet, mapGet, h, mapGet_mapSet k v rest]

theorem mapKeys_mapSet (k : String) (v : StoredCode) :
    ∀ st : Store, mapKeys (mapSet k v st) =
      if k ∈ mapKeys st then mapKeys st else mapKeys st ++ [k]
  | [] => by simp [mapSet, mapKeys]
  | (k', v') :: rest => by
    by_cases h : k' = k
    · simp [mapSet, mapKeys, h]
    · have ih := mapKeys_mapSet k v rest
      simp only [mapSet, if_neg h, mapKeys, List.map_cons] at ih ⊢
      by_cases hk : k ∈ mapKeys rest
      · simp only [mapKeys] at hk
        simp [hk, ih, Ne.symm h]
      · simp only [mapKeys] at hk
        simp [hk, ih, Ne.symm h]

theorem mem_mapSet (k : String) (v : StoredCode) (e : String × StoredCode) :
    ∀ st : Store, e ∈ mapSet k v st → e = (k, v) ∨ e ∈ st
  | [] => by simp [mapSet]
  | (k', v') :: rest => by
    by_cases h : k' = k
    · simp only [mapSet, if_pos h, List.mem_cons]
      tauto
    · simp only [mapSet, if_neg h, List.mem_cons]
      rintro (rfl | he)
      · tauto
      · rcases mem_mapSet k v e rest he with h1 | h1 <;> tauto

/-! ## Substring-search lemmas -/

theorem matchAt_iff {pat s : List Char} {i : Nat} :
    matchAt pat s i = true ↔ (s.drop i).take pat.length = pat := by
  simp [matchAt]

theorem matchAt_length {pat s : List Char} {i : Nat} (hp : pat ≠ [])
    (h : matchAt pat s i = true) : i + pat.length ≤ s.length := by
  rw [matchAt_iff] at h
  have hl := congrArg List.length h
  simp only [List.length_take, List.length_drop] at hl
  have hmin : pat.length ⊓ (s.length - i) ≤ s.length - i := Nat.min_le_right _ _
  rw [hl] at hmin
  have hplen : 0 < pat.length := List.length_pos.mpr hp
  omega

theorem matchAt_get {pat s : List Char} {i : Nat} (h : matchAt pat s i = true)
    (k : Nat) (hk : k < pat.length) : s.get? (i + k) = pat.get? k := by
  rw [matchAt_iff] at h
  have h1 : pat.get? k = ((s.drop i).take pat.length).get? k := by rw [h]
  rw [List.get?_take hk, List.get?_drop] at h1
  exact h1.symm

theorem matchAt_mem {pat s : List Char} {i : Nat} {c : Char}
    (h : matchAt pat s i = true) (hc : c ∈ pat) : c ∈ s := by
  rw [matchAt_iff] at h
  rw [← h] at hc
  exact List.drop_subset i s (List.take_subset _ _ hc)

theorem matchAt_append_left {pat a b : List Char} {k : Nat}
    (hk : k + pat.length ≤ a.length) :
    matchAt pat (a ++ b) k = matchAt pat a k := by
  unfold matchAt
  rw [List.drop_append_of_le_length (by omega),
    List.take_append_of_le_length (by simp only [List.length_drop]; omega)]

theorem matchAt_append_shift (pat a u : List Char) (k : Nat) :
    matchAt pat (a ++ u) (a.length + k) = matchAt pat u k := by
  unfold matchAt
  rw [List.drop_append]

theorem matchAt_singleton {c : Char} {s : List Char} {k : Nat} :
    matchAt [c] s k = true ↔ s.get? k = some c := by
  rw [matchAt_iff]
  have hg : s.get? k = (s.drop k).get? 0 := by
    simp [List.get?_drop]
  rw [hg]
  cases h : s.drop k with
  | nil => simp
  | cons a u => simp [List.take]

theorem findSubAux_none (pat s : List Char) :
    ∀ (n i : Nat), findSubAux pat s n i = none ↔
      ∀ k, i ≤ k → k < i + n → matchAt pat s k = false := by
  intro n
  induction n with
  | zero =>
    intro i
    constructor
    · intro _ k h1 h2
      omega
    · intro _
      rfl
  | succ n ih =>
    intro i
    unfold findSubAux
    by_cases h : matchAt pat s i = true
    · rw [if_pos h]
      constructor
      · intro hc
        exact absurd hc (by simp)
      · intro hall
        have := hall i (le_refl i) (by omega)
        rw [h] at this
        exact absurd this (by simp)
    · rw [if_neg h, ih (i + 1)]
      constructor
      · intro hall k h1 h2
        rcases Nat.eq_or_lt_of_le h1 with rfl | hlt
        · exact Bool.eq_false_iff.mpr h
        · exact hall k hlt (by omega)
      · intro hall k h1 h2
        exact hall k (by omega) (by omega)

theorem findSub_none_iff {pat s : List Char} (hp : pat ≠ []) :
    findSub pat s = none ↔ ∀ k, matchAt pat s k = false := by
  unfold findSub
  rw [findSubAux_none]
  constructor
  · intro hall k
    by_cases hk : k < s.length + 1
    · exact hall k (Nat.zero_le k) (by omega)
    · cases hm : matchAt pat s k
      · rfl
      · have := matchAt_length hp hm
        have hplen : 0 < pat.length := List.length_pos.mpr hp
        omega
  · intro hall k _ _
    exact hall k

theorem findSub_eq_some {pat s : List Char} {m : Nat} (hp : pat ≠ [])
    (hm : matchAt pat s m = true) (hlt : ∀ k, k < m → matchAt pat s k = false) :
    findSub pat s = some m := by
  have hmlen := matchAt_length hp hm
  have key : ∀ n i, i ≤ m → m < i + n → findSubAux pat s n i = some m := by
    intro n
    induction n with
    | zero =>
      intro i h1 h2
      omega
    | succ n ih =>
      intro i h1 h2
      unfold findSubAux
      rcases Nat.eq_or_lt_of_le h1 with rfl | hlt2
      · rw [if_pos hm]
      · rw [if_neg (by simp [hlt i hlt2])]
        exact ih (i + 1) hlt2 (by omega)
  exact key (s.length + 1) 0 (Nat.zero_le m) (by omega)

theorem findSub_singleton_append {c : Char} (pre u : List Char) (hc : c ∉ pre) :
    findSub [c] (pre ++ c :: u) = some pre.length := by
  apply findSub_eq_some (by simp)
  · rw [matchAt_singleton, List.get?_append_right (le_refl pre.length)]
    simp
  · intro k hk
    cases hm : matchAt [c] (pre ++ c :: u) k
    · rfl
    · exfalso
      rw [matchAt_singleton] at hm
      rw [List.get?_append hk] at hm
      exact hc (List.get?_mem hm)

theorem matchAt_ticks_of_ticksJson {s : List Char} {i : Nat}
    (h : matchAt ticksJson s i = true) : matchAt ticks s i = true := by
  rw [matchAt_iff] at h ⊢
  have h3 : (s.drop i).take 3 = ((s.drop i).take 7).take 3 := by
    rw [List.take_take, (by decide : (3 : Nat) ⊓ 7 = 3)]
  have h7 : ticksJson.length = 7 := rfl
  rw [h7] at h
  have hlen : ticks.length = 3 := rfl
  rw [hlen, h3, h]
  rfl

/-! ## Fence-regex lemmas -/

theorem fenceMatch_none {opener s : List Char}
    (h : ∀ i, matchAt opener s i = false) : fenceMatch opener s = none := by
  unfold fenceMatch
  have hf : (List.range (s.length + 1)).filter (fun i => matchAt opener s i) = [] := by
    apply List.filter_eq_nil.mpr
    intro a _
    simp [h a]
  rw [hf]
  rfl

theorem fenceMatch_zero {opener s g : List Char}
    (h0 : matchAt opener s 0 = true) (hs : tryFenceAt s opener.length 0 = some g) :
    fenceMatch opener s = some g := by
  unfold fenceMatch
  rw [List.range_succ_eq_map, List.filter_cons, if_pos h0, List.findSome?_cons, hs]

theorem findSub_close_append {mid : List Char}
    (hnc : findSub closeFence ('\x7b' :: mid ++ ['\x7d']) = none) :
    findSub closeFence (('\x7b' :: mid ++ ['\x7d']) ++ closeFence) =
      some ('\x7b' :: mid ++ ['\x7d']).length := by
  set j : List Char := '\x7b' :: mid ++ ['\x7d'] with hj
  have hjlen : j.length = mid.length + 2 := by simp [hj]
  have hjlast : j.get? (j.length - 1) = some '\x7d' := by
    have : j = ('\x7b' :: mid) ++ ['\x7d'] := by simp [hj]
    rw [this]
    have hl : (('\x7b' :: mid) ++ ['\x7d']).length - 1 = ('\x7b' :: mid).length := by
      simp
    rw [hl]
    exact List.get?_concat_length _ _
  apply findSub_eq_some (by decide)
  · rw [matchAt_iff, List.drop_left]
    rfl
  · intro k hk
    cases hmk : matchAt closeFence (j ++ closeFence) k
    · rfl
    · exfalso
      by_cases hk4 : k + 4 ≤ j.length
      · have hmj : matchAt closeFence j k = true := by
          have := @matchAt_append_left closeFence j closeFence k (by simpa using hk4)
          rw [← this]
          exact hmk
        have hall := (findSub_none_iff (by decide)).mp hnc
        rw [hall k] at hmj
        exact absurd hmj (by simp)
      · have hkk : j.length - 1 - k < closeFence.length := by
          simp only [closeFence, ticks]
          simp only [List.length_cons]
          omega
        have hget := matchAt_get hmk (j.length - 1 - k) hkk
        rw [(by omega : k + (j.length - 1 - k) = j.length - 1)] at hget
        have hlft : (j ++ closeFence).get? (j.length - 1) = j.get? (j.length - 1) :=
          List.get?_append (by omega)
        rw [hlft, hjlast] at hget
        have hcf : closeFence.get? (j.length - 1 - k) = some '\x7d' := hget.symm
        have hb2 : j.length - 1 - k ≤ 2 := by omega
        set k2 := j.length - 1 - k with hk2
        interval_cases k2 <;> exact absurd hcf (by decide)

theorem tryFenceAt_wrap (o mid : List Char)
    (hnc : findSub closeFence ('\x7b' :: mid ++ ['\x7d']) = none) :
    tryFenceAt (o ++ '\n' :: (('\x7b' :: mid ++ ['\x7d']) ++ closeFence)) o.length 0 =
      some ('\x7b' :: mid ++ ['\x7d']) := by
  set j : List Char := '\x7b' :: mid ++ ['\x7d'] with hj
  have hdrop : (o ++ '\n' :: (j ++ closeFence)).drop (0 + o.length) = '\n' :: (j ++ closeFence) := by
    rw [Nat.zero_add]
    exact List.drop_left o _
  have htw : (('\n' : Char) :: (j ++ closeFence)).takeWhile isWs = ['\n'] := by
    rw [List.takeWhile_cons, if_pos (by decide)]
    have : j ++ closeFence = '\x7b' :: ((mid ++ ['\x7d']) ++ closeFence) := by simp [hj]
    rw [this, List.takeWhile_cons, if_neg (by decide)]
  have hassoc : o ++ '\n' :: (j ++ closeFence) = (o ++ ['\n']) ++ (j ++ closeFence) := by
    simp
  have hdrop2 : (o ++ '\n' :: (j ++ closeFence)).drop (0 + o.length + 0 + 1) = j ++ closeFence := by
    rw [hassoc, (by simp : 0 + o.length + 0 + 1 = (o ++ ['\n']).length), List.drop_left]
  have htake : (o ++ '\n' :: (j ++ closeFence)).take (0 + o.length + 0 + 1 + j.length) =
      (o ++ ['\n']) ++ j := by
    rw [hassoc, (by simp : 0 + o.length + 0 + 1 + j.length = (o ++ ['\n']).length + j.length)]
    rw [List.take_append]
    rw [List.take_append_of_le_length (le_refl j.length), List.take_length]
  unfold tryFenceAt
  rw [hdrop, htw]
  have hrange : (List.filter (fun k => (('\n' : Char) :: (j ++ closeFence)).get? k == some '\n')
      (List.range (['\n'] : List Char).length)).reverse = [0] := rfl
  rw [hrange]
  simp only [List.findSome?_cons]
  rw [hdrop2, findSub_close_append hnc]
  show some (((o ++ '\n' :: (j ++ closeFence)).take
      (0 + o.length + 0 + 1 + ('\x7b' :: mid ++ ['\x7d']).length)).drop (0 + o.length + 0 + 1)) =
    some j
  rw [(rfl : ('\x7b' :: mid ++ ['\x7d']).length = j.length), htake,
    (by simp : 0 + o.length + 0 + 1 = (o ++ ['\n']).length), List.drop_left]

/-! ## Trim and brace-span lemmas -/

theorem dropWhile_append_cases (p : Char → Bool) (a b : List Char) :
    (a ++ b).dropWhile p = a.dropWhile p ++ b ∨ (a ++ b).dropWhile p = b.dropWhile p := by
  induction a with
  | nil => right; rfl
  | cons x a ih =>
    by_cases h : p x
    · rw [List.cons_append, List.dropWhile_cons, if_pos h, List.dropWhile_cons, if_pos h]
      exact ih
    · left
      rw [List.cons_append, List.dropWhile_cons, if_neg h, List.dropWhile_cons, if_neg h,
        List.cons_append]

theorem mem_of_mem_dropWhile {p : Char → Bool} {l : List Char} {c : Char}
    (h : c ∈ l.dropWhile p) : c ∈ l := by
  induction l with
  | nil => simpa using h
  | cons x l ih =>
    rw [List.dropWhile_cons] at h
    by_cases hx : p x
    · rw [if_pos hx] at h
      exact List.mem_cons_of_mem _ (ih h)
    · rw [if_neg hx] at h
      exact h

theorem trimChars_decomp (pre mid post : List Char) :
    ∃ pre' post', trimChars (pre ++ ('\x7b' :: mid ++ ['\x7d']) ++ post) =
        pre' ++ ('\x7b' :: mid ++ ['\x7d']) ++ post' ∧
      (∀ c ∈ pre', c ∈ pre) ∧ (∀ c ∈ post', c ∈ post) := by
  set j : List Char := '\x7b' :: mid ++ ['\x7d'] with hj
  have hjp : ∀ u : List Char, (j ++ u).dropWhile isWs = j ++ u := by
    intro u
    have : j ++ u = '\x7b' :: ((mid ++ ['\x7d']) ++ u) := by simp [hj]
    rw [this, List.dropWhile_cons, if_neg (by decide)]
  have hjr : j.reverse = '\x7d' :: (mid.reverse ++ ['\x7b']) := by
    simp [hj]
  have hjrp : ∀ u : List Char, (j.reverse ++ u).dropWhile isWs = j.reverse ++ u := by
    intro u
    rw [hjr, List.cons_append, List.dropWhile_cons, if_neg (by decide)]
  obtain ⟨pre1, hpre1, heq1⟩ :
      ∃ pre1, (∀ c ∈ pre1, c ∈ pre) ∧
        (pre ++ (j ++ post)).dropWhile isWs = pre1 ++ (j ++ post) := by
    rcases dropWhile_append_cases isWs pre (j ++ post) with h | h
    · exact ⟨pre.dropWhile isWs, fun c hc => mem_of_mem_dropWhile hc, h⟩
    · exact ⟨[], by simp, by rw [h, hjp]; rfl⟩
  obtain ⟨post1, hpost1, heq2⟩ :
      ∃ post1, (∀ c ∈ post1, c ∈ post.reverse) ∧
        (post.reverse ++ (j.reverse ++ pre1.reverse)).dropWhile isWs =
          post1 ++ (j.reverse ++ pre1.reverse) := by
    rcases dropWhile_append_cases isWs post.reverse (j.reverse ++ pre1.reverse) with h | h
    · exact ⟨post.reverse.dropWhile isWs, fun c hc => mem_of_mem_dropWhile hc, h⟩
    · exact ⟨[], by simp, by rw [h, hjrp]; rfl⟩
  refine ⟨pre1, post1.reverse, ?_, hpre1, ?_⟩
  · unfold trimChars
    have hs : pre ++ j ++ post = pre ++ (j ++ post) := by simp
    rw [hs, heq1]
    have hrev : (pre1 ++ (j ++ post)).reverse = post.reverse ++ (j.reverse ++ pre1.reverse) := by
      simp
    rw [hrev, heq2]
    simp
  · intro c hc
    rw [List.mem_reverse] at hc
    have := hpost1 c hc
    rwa [List.mem_reverse] at this

theorem braceSpan_wrap (pre mid post : List Char)
    (hpre : '\x7b' ∉ pre) (hpost : '\x7d' ∉ post) :
    braceSpan (pre ++ ('\x7b' :: mid ++ ['\x7d']) ++ post) =
      some ('\x7b' :: mid ++ ['\x7d']) := by
  set j : List Char := '\x7b' :: mid ++ ['\x7d'] with hj
  have hfirst : findSub ['\x7b'] (pre ++ j ++ post) = some pre.length := by
    have hs : pre ++ j ++ post = pre ++ '\x7b' :: ((mid ++ ['\x7d']) ++ post) := by simp [hj]
    rw [hs]
    exact findSub_singleton_append pre _ hpre
  have hlast : findSub ['\x7d'] ((pre ++ j ++ post).reverse) = some post.length := by
    have hs : (pre ++ j ++ post).reverse =
        post.reverse ++ '\x7d' :: (mid.reverse ++ ('\x7b' :: pre.reverse)) := by
      simp [hj]
    rw [hs]
    have := @findSub_singleton_append '\x7d' post.reverse
      (mid.reverse ++ ('\x7b' :: pre.reverse)) (by simpa using hpost)
    simpa using this
  have hlen : (pre ++ j ++ post).length = pre.length + (mid.length + 2) + post.length := by
    simp [hj]
    omega
  unfold braceSpan
  rw [hfirst, hlast]
  have he : (pre ++ j ++ post).length - 1 - post.length = pre.length + (mid.length + 1) := by
    omega
  show (if pre.length < (pre ++ j ++ post).length - 1 - post.length then
      some (((pre ++ j ++ post).take
        ((pre ++ j ++ post).length - 1 - post.length + 1)).drop pre.length)
    else none) = some j
  rw [he]
  rw [if_pos (by omega)]
  have htake : (pre ++ j ++ post).take (pre.length + (mid.length + 1) + 1) = pre ++ j := by
    have hs : pre ++ j ++ post = pre ++ (j ++ post) := by simp
    have hjlen : j.length = mid.length + 2 := by simp [hj]
    rw [hs, (by omega : pre.length + (mid.length + 1) + 1 = pre.length + j.length),
      List.take_append, List.take_append_of_le_length (le_refl j.length), List.take_length]
  rw [htake, List.drop_left]

/-! ## Extraction lemmas assembled per response shape -/

theorem trimChars_wrap_self (mid : List Char) :
    trimChars ('\x7b' :: mid ++ ['\x7d']) = '\x7b' :: mid ++ ['\x7d'] := by
  obtain ⟨pre', post', heq, hp, hq⟩ := trimChars_decomp [] mid []
  have hp' : pre' = [] := by
    rw [List.eq_nil_iff_forall_not_mem]
    intro a ha
    simpa using hp a ha
  have hq' : post' = [] := by
    rw [List.eq_nil_iff_forall_not_mem]
    intro a ha
    simpa using hq a ha
  rw [hp', hq'] at heq
  simpa using heq

theorem braceSpan_self (mid : List Char) :
    braceSpan ('\x7b' :: mid ++ ['\x7d']) = some ('\x7b' :: mid ++ ['\x7d']) := by
  have := braceSpan_wrap [] mid [] (by simp) (by simp)
  simpa using this

theorem stripFence_no_ticks {s : List Char} (h : findSub ticks s = none) :
    stripFence s = trimChars s := by
  have hall := (findSub_none_iff (by decide)).mp h
  have h7 : ∀ i, matchAt ticksJson s i = false := by
    intro i
    cases hm : matchAt ticksJson s i
    · rfl
    · have hx := matchAt_ticks_of_ticksJson hm
      rw [hall i] at hx
      exact absurd hx (by simp)
  unfold stripFence
  rw [fenceMatch_none h7, fenceMatch_none hall]

theorem no_ticksJson_plain_wrap (mid : List Char)
    (hnj : findSub ticksJson ('\x7b' :: mid ++ ['\x7d']) = none) :
    ∀ i, matchAt ticksJson
      (ticks ++ '\n' :: (('\x7b' :: mid ++ ['\x7d']) ++ closeFence)) i = false := by
  intro i
  set j : List Char := '\x7b' :: mid ++ ['\x7d'] with hj
  set s : List Char := ticks ++ '\n' :: (j ++ closeFence) with hsdef
  cases hm : matchAt ticksJson s i
  · rfl
  exfalso
  have hjlen : j.length = mid.length + 2 := by simp [hj]
  have hslen : s.length = j.length + 8 := by
    simp [hsdef, closeFence, ticks]
  have h7 : ticksJson.length = 7 := rfl
  have hlen := matchAt_length (by decide) hm
  rw [h7, hslen] at hlen
  by_cases h4 : i < 4
  · have hg := matchAt_get hm (3 - i) (by rw [h7]; omega)
    rw [(by omega : i + (3 - i) = 3)] at hg
    have h3 : s.get? 3 = some '\n' := rfl
    rw [h3] at hg
    have hb : 3 - i ≤ 3 := by omega
    set k2 := 3 - i with hk2
    interval_cases k2 <;> exact absurd hg.symm (by decide)
  · have hshift : s = (ticks ++ ['\n']) ++ (j ++ closeFence) := by simp [hsdef]
    by_cases hin : i + 7 ≤ 4 + j.length
    · have hlen4 : (ticks ++ ['\n'] : List Char).length = 4 := rfl
      have heq := matchAt_append_shift ticksJson (ticks ++ ['\n']) (j ++ closeFence) (i - 4)
      rw [hlen4, (by omega : 4 + (i - 4) = i), ← hshift] at heq
      have hm2 : matchAt ticksJson (j ++ closeFence) (i - 4) = true := by
        rw [← heq]
        exact hm
      rw [matchAt_append_left (by rw [h7]; omega)] at hm2
      have hall := (findSub_none_iff (by decide)).mp hnj
      rw [hall (i - 4)] at hm2
      exact absurd hm2 (by simp)
    · have hg := matchAt_get hm (4 + j.length - i) (by rw [h7]; omega)
      rw [(by omega : i + (4 + j.length - i) = 4 + j.length)] at hg
      have h4j : s.get? (4 + j.length) = some '\n' := by
        have hshift2 : s = ((ticks ++ ['\n']) ++ j) ++ closeFence := by simp [hsdef]
        have hlen2 : ((ticks ++ ['\n']) ++ j).length = 4 + j.length := by
          simp [ticks]
          omega
        rw [hshift2, ← hlen2, List.get?_append_right (le_refl _), Nat.sub_self]
        rfl
      rw [h4j] at hg
      have hb1 : 3 ≤ 4 + j.length - i := by omega
      have hb2 : 4 + j.length - i ≤ 6 := by omega
      set k2 := 4 + j.length - i with hk2
      interval_cases k2 <;> exact absurd hg.symm (by decide)

theorem extract_pure (mid : List Char)
    (hnt : findSub ticks ('\x7b' :: mid ++ ['\x7d']) = none) :
    extractJsonSpan ('\x7b' :: mid ++ ['\x7d']) = some ('\x7b' :: mid ++ ['\x7d']) := by
  unfold extractJsonSpan
  rw [stripFence_no_ticks hnt, trimChars_wrap_self, braceSpan_self]

theorem extract_fenced_json (mid : List Char)
    (hnc : findSub closeFence ('\x7b' :: mid ++ ['\x7d']) = none) :
    extractJsonSpan (ticksJson ++ '\n' :: (('\x7b' :: mid ++ ['\x7d']) ++ closeFence)) =
      some ('\x7b' :: mid ++ ['\x7d']) := by
  have h0 : matchAt ticksJson
      (ticksJson ++ '\n' :: (('\x7b' :: mid ++ ['\x7d']) ++ closeFence)) 0 = true := by
    rw [matchAt_iff, List.drop_zero]
    exact List.take_left _ _
  have htry := tryFenceAt_wrap ticksJson mid hnc
  unfold extractJsonSpan stripFence
  rw [fenceMatch_zero h0 htry]
  show braceSpan (trimChars ('\x7b' :: mid ++ ['\x7d'])) = some ('\x7b' :: mid ++ ['\x7d'])
  rw [trimChars_wrap_self, braceSpan_self]

theorem extract_fenced_plain (mid : List Char)
    (hnc : findSub closeFence ('\x7b' :: mid ++ ['\x7d']) = none)
    (hnj : findSub ticksJson ('\x7b' :: mid ++ ['\x7d']) = none) :
    extractJsonSpan (ticks ++ '\n' :: (('\x7b' :: mid ++ ['\x7d']) ++ closeFence)) =
      some ('\x7b' :: mid ++ ['\x7d']) := by
  have hnone := no_ticksJson_plain_wrap mid hnj
  have h0 : matchAt ticks
      (ticks ++ '\n' :: (('\x7b' :: mid ++ ['\x7d']) ++ closeFence)) 0 = true := by
    rw [matchAt_iff, List.drop_zero]
    exact List.take_left _ _
  have htry := tryFenceAt_wrap ticks mid hnc
  unfold extractJsonSpan stripFence
  rw [fenceMatch_none hnone, fenceMatch_zero h0 htry]
  show braceSpan (trimChars ('\x7b' :: mid ++ ['\x7d'])) = some ('\x7b' :: mid ++ ['\x7d'])
  rw [trimChars_wrap_self, braceSpan_self]

theorem extract_prose (pre mid post : List Char)
    (hpre : '\x7b' ∉ pre) (hpost : '\x7d' ∉ post)
    (hnt : findSub ticks (pre ++ ('\x7b' :: mid ++ ['\x7d']) ++ post) = none) :
    extractJsonSpan (pre ++ ('\x7b' :: mid ++ ['\x7d']) ++ post) =
      some ('\x7b' :: mid ++ ['\x7d']) := by
  unfold extractJsonSpan
  rw [stripFence_no_ticks hnt]
  obtain ⟨pre', post', heq, hp, hq⟩ := trimChars_decomp pre mid post
  rw [heq]
  exact braceSpan_wrap pre' mid post' (fun hc => hpre (hp _ hc)) (fun hc => hpost (hq _ hc))

/-! ## Claim C3: the debounce guarantee -/

/-- C3: for every burst of N ≥ 1 calls to the debounced webhook sender
with inter-call gaps strictly smaller than the quiescence window W,
exactly one delivery attempt occurs, it fires W after the last call of
the burst, and its payload is the payload of the last call; no delivery
occurs at any other time. -/
theorem debounce_burst_single_delivery :
    ∀ (W : Nat) (calls : List (Nat × WebhookPayload))
      (hb : burstGaps W calls = true) (hne : calls ≠ []),
      deliveries W calls = [((calls.getLast hne).1 + W, (calls.getLast hne).2)]
  | _, [], _, hne => absurd rfl hne
  | W, [(t, p)], _, _ => by simp [deliveries]
  | W, (t, p) :: (t', p') :: rest, hb, _ => by
    simp only [burstGaps, Bool.and_eq_true, decide_eq_true_eq] at hb
    have h1 : ¬ (t + W ≤ t') := by omega
    have ih := debounce_burst_single_delivery W ((t', p') :: rest) hb.2 (by simp)
    simp only [deliveries, if_neg h1, List.nil_append, ih, List.getLast_cons_cons]

theorem debounce_burst_single_delivery_witness :
    burstGaps 2000 [(0, payloadA), (500, payloadB)] = true ∧
    deliveries 2000 [(0, payloadA), (500, payloadB)] = [(2500, payloadB)] :=
  ⟨by decide,
   by
    have h := debounce_burst_single_delivery 2000 [(0, payloadA), (500, payloadB)]
      (by decide) (by simp)
    simpa using h⟩

/-! ## Claim C4: the delivery-status indicator -/

/-- C4 counterexample: after a failed delivery (outcome `false`), at the
moment the terminal state is displayed the status is `sent`, not
`error` — the indicator is driven purely by timers, never by the
delivery outcome. -/
theorem status_not_outcome_driven_cex :
    webhookStatusAt false (WEBHOOK_DEBOUNCE_DELAY + 500) = WebhookStatus.sent ∧
    webhookStatusAt false (WEBHOOK_DEBOUNCE_DELAY + 500) ≠ WebhookStatus.error := by
  decide

/-- C4 amended: the status indicator transitions
`sending → sent → idle` on a fixed timer schedule that is identical for
successful and failed deliveries; the `error` value is never assigned.
Only `sendCodeUpdate`'s boolean return value reflects the outcome. -/
theorem status_schedule_time_based (o : Bool) (ms : Nat) :
    webhookStatusAt o ms = webhookStatusAt (!o) ms ∧
    webhookStatusAt o ms ≠ WebhookStatus.error ∧
    webhookStatusAt o 0 = WebhookStatus.sending ∧
    webhookStatusAt o (WEBHOOK_DEBOUNCE_DELAY + 500) = WebhookStatus.sent ∧
    webhookStatusAt o (WEBHOOK_DEBOUNCE_DELAY + 1500) = WebhookStatus.idle ∧
    sendCodeUpdateResult true true o = o := by
  refine ⟨rfl, ?_, rfl, rfl, rfl, by cases o <;> rfl⟩
  unfold webhookStatusAt
  split
  · simp
  · split <;> simp

/-! ## Claim C5: one entry per session, last put wins -/

/-- C5: the session store holds at most one entry per session id (the
key list stays duplicate-free under `put`), and for two puts to the same
session id the one arriving last at the store determines the stored
snapshot, regardless of either payload's embedded client timestamp:
after the webhook POST of A and then of B, GET returns B. -/
theorem store_single_entry_last_put_wins :
    (∀ (st : Store) (k : String) (v : StoredCode),
       (mapKeys st).Nodup → (mapKeys (mapSet k v st)).Nodup) ∧
    (∀ (st : Store) (k : String) (A B : StoredCode),
       mapGet k (mapSet k B (mapSet k A st)) = some B) ∧
    (∀ (ek ak : Option String) (st : Store) (cA lA tA cB lB tB sid : String)
       (uA uB : Option String) (nA nB : Nat),
       keyOk ek ak = true →
       cA ≠ "" → lA ≠ "" → tA ≠ "" → cB ≠ "" → lB ≠ "" → tB ≠ "" → sid ≠ "" →
       getHandler ek ak (some sid)
         ((postHandler ek ak ⟨some cB, some lB, some tB, some sid, uB⟩ nB
            ((postHandler ek ak ⟨some cA, some lA, some tA, some sid, uA⟩ nA st).2)).2) =
         GetResponse.okStored sid ⟨cB, lB, tB, uB, nB⟩) := by
  refine ⟨?_, ?_, ?_⟩
  · intro st k v h
    rw [mapKeys_mapSet]
    split
    · exact h
    · simpa [List.nodup_append] using ⟨h, by assumption⟩
  · intro st k A B
    exact mapGet_mapSet k B _
  · intro ek ak st cA lA tA cB lB tB sid uA uB nA nB hkey hcA hlA htA hcB hlB htB hsid
    simp only [postHandler, hkey, Bool.false_eq_true, if_false, hcA, hlA, htA, hcB, hlB, htB,
      hsid, Bool.or_self, if_neg, getHandler]
    simp [getHandler, hsid, hkey, hcB, hlB, htB, mapGet_mapSet, postHandler, hcA, hlA, htA]

theorem store_single_entry_last_put_wins_witness :
    ([("s1", (⟨"A", "javascript", "2024-01-02T00:00:00Z", none, 5⟩ : StoredCode))] :
        Store).length = 1 ∧
    getHandler none none (some "s1")
        ((postHandler none none ⟨some "B", some "js", some "2024-01-01T00:00:00Z", some "s1", none⟩ 7
          ((postHandler none none ⟨some "A", some "js", some "2024-01-02T00:00:00Z", some "s1", none⟩ 6
            ([] : Store)).2)).2) =
      GetResponse.okStored "s1" ⟨"B", "js", "2024-01-01T00:00:00Z", none, 7⟩ :=
  ⟨rfl,
   store_single_entry_last_put_wins.2.2 none none [] "A" "js" "2024-01-02T00:00:00Z"
     "B" "js" "2024-01-01T00:00:00Z" "s1" none none 6 7 rfl (by decide) (by decide)
     (by decide) (by decide) (by decide) (by decide) (by decide)⟩

/-! ## Claim C6: POST then GET round-trips -/

/-- C6: for every valid snapshot, the webhook POST answers 200 with
`success:true` and the posted session id, and a subsequent GET with the
same session id answers 200 with a value equal to the posted snapshot in
all client-supplied fields plus a server-assigned `lastUpdated` at least
the put's wall-clock time. -/
theorem post_then_get_roundtrip (ek ak : Option String) (c l t sid : String)
    (uid : Option String) (now : Nat) (store : Store)
    (hkey : keyOk ek ak = true) (hc : c ≠ "") (hl : l ≠ "") (ht : t ≠ "") (hs : sid ≠ "") :
    (postHandler ek ak ⟨some c, some l, some t, some sid, uid⟩ now store).1 =
      PostResponse.okReceived sid ∧
    postHttpStatus (postHandler ek ak ⟨some c, some l, some t, some sid, uid⟩ now store).1 = 200 ∧
    ∃ st : StoredCode,
      getHandler ek ak (some sid)
          (postHandler ek ak ⟨some c, some l, some t, some sid, uid⟩ now store).2 =
        GetResponse.okStored sid st ∧
      getHttpStatus (getHandler ek ak (some sid)
          (postHandler ek ak ⟨some c, some l, some t, some sid, uid⟩ now store).2) = 200 ∧
      st.code = c ∧ st.language = l ∧ st.timestamp = t ∧ st.userId = uid ∧
      now ≤ st.lastUpdated := by
  have hpost : postHandler ek ak ⟨some c, some l, some t, some sid, uid⟩ now store =
      (.okReceived sid, mapSet sid ⟨c, l, t, uid, now⟩ store) := by
    simp [postHandler, hkey, hc, hl, ht, hs]
  refine ⟨by rw [hpost], by rw [hpost]; rfl, ⟨c, l, t, uid, now⟩, ?_, ?_, rfl, rfl, rfl, rfl,
    le_refl now⟩
  · rw [hpost]
    simp [getHandler, hs, hkey, mapGet_mapSet]
  · rw [hpost]
    simp [getHandler, hs, hkey, mapGet_mapSet]
    rfl

theorem post_then_get_roundtrip_witness :
    (postHandler none none
        ⟨some "console.log(1)", some "javascript", some "2024-01-01T00:00:00Z", some "s1", none⟩
        42 ([] : Store)).1 = PostResponse.okReceived "s1" ∧
    ∃ st : StoredCode,
      getHandler none none (some "s1")
          (postHandler none none
            ⟨some "console.log(1)", some "javascript", some "2024-01-01T00:00:00Z", some "s1", none⟩
            42 ([] : Store)).2 =
        GetResponse.okStored "s1" st ∧
      st.code = "console.log(1)" ∧ 42 ≤ st.lastUpdated := by
  have h := post_then_get_roundtrip none none "console.log(1)" "javascript"
    "2024-01-01T00:00:00Z" "s1" none 42 [] rfl (by decide) (by decide) (by decide) (by decide)
  obtain ⟨h1, _, st, h3, _, hc, _, _, _, hlu⟩ := h
  exact ⟨h1, st, h3, hc, hlu⟩

/-! ## Claim C7: snapshot optional, transcript required -/

/-- C7: in the report pipeline, absence of a stored code snapshot is
tolerated (synthesis proceeds without code context and can reach Done),
whereas a failed transcript fetch, or a response without a transcript,
is fatal: the pipeline fails with an upstream error and no report. -/
theorem report_pipeline_snapshot_optional (sid : Option String)
    (codeFetch : Option StoredCode) (gen : String → Option Json) (tr : String) (r : Json)
    (htr : tr ≠ "") (hgen : gen tr = some r) :
    generateReportPage sid none (some ⟨some tr⟩) gen = Except.ok r ∧
    generateReportPage sid codeFetch none gen =
      Except.error "Failed to fetch transcript" ∧
    generateReportPage sid codeFetch (some ⟨none⟩) gen =
      Except.error "No transcript available" := by
  refine ⟨?_, ?_, ?_⟩
  · cases sid with
    | none => simp [generateReportPage, htr, buildContext, hgen]
    | some s => by_cases hs : s = "" <;> simp [generateReportPage, hs, htr, buildContext, hgen]
  · cases sid with
    | none => rfl
    | some s => by_cases hs : s = "" <;> simp [generateReportPage, hs]
  · cases sid with
    | none => rfl
    | some s => by_cases hs : s = "" <;> simp [generateReportPage, hs]

theorem report_pipeline_snapshot_optional_witness :
    generateReportPage (some "s1") none
        (some ⟨some "Interviewer: hi"⟩) (fun _ => some Json.null) = Except.ok Json.null ∧
    generateReportPage (some "s1") none none (fun _ => some Json.null) =
      Except.error "Failed to fetch transcript" := by
  have h := report_pipeline_snapshot_optional (some "s1") none (fun _ => some Json.null)
    "Interviewer: hi" Json.null (by decide) rfl
  exact ⟨h.1, h.2.1⟩

/-! ## Claim C8: unknown session answers 404 with the known ids -/

/-- C8: a GET whose session id names no stored snapshot answers 404 with
`success:false` and an `availableSessions` list holding exactly the
session ids currently present in the store. -/
theorem get_unknown_session_404 (ek ak : Option String) (sid : String) (store : Store)
    (hs : sid ≠ "") (hkey : keyOk ek ak = true) (hmiss : mapGet sid store = none) :
    getHandler ek ak (some sid) store = GetResponse.notFound (mapKeys store) ∧
    getHttpStatus (getHandler ek ak (some sid) store) = 404 := by
  have h : getHandler ek ak (some sid) store = GetResponse.notFound (mapKeys store) := by
    simp [getHandler, hs, hkey, hmiss]
  exact ⟨h, by rw [h]; rfl⟩

theorem get_unknown_session_404_witness :
    getHandler none none (some "unknown")
        [("s1", (⟨"c", "js", "t", none, 3⟩ : StoredCode))] =
      GetResponse.notFound ["s1"] :=
  (get_unknown_session_404 none none "unknown"
    [("s1", (⟨"c", "js", "t", none, 3⟩ : StoredCode))] (by decide) rfl rfl).1

/-! ## Claim C9: scope of the API-key check -/

/-- C9: a GET without a session id answers the index metadata with 200
without any API-key check, even when a key is configured and the header
is absent or wrong; the key check applies to GETs that supply a session
id and to all POSTs, answering 401 on mismatch. -/
theorem apikey_check_scope :
    (∀ (ek ak : Option String) (store : Store),
       getHandler ek ak none store = GetResponse.index store.length (mapKeys store) ∧
       getHttpStatus (getHandler ek ak none store) = 200) ∧
    (∀ (s sid : String) (ak : Option String) (store : Store),
       s ≠ "" → ak ≠ some s → sid ≠ "" →
       getHandler (some s) ak (some sid) store = GetResponse.unauthorized) ∧
    (∀ (s : String) (ak : Option String) (body : PostBody) (now : Nat) (store : Store),
       s ≠ "" → ak ≠ some s →
       postHandler (some s) ak body now store = (PostResponse.unauthorized, store)) := by
  refine ⟨fun ek ak store => ⟨rfl, rfl⟩, ?_, ?_⟩
  · intro s sid ak store hs hak hsid
    have hko : keyOk (some s) ak = false := by
      simp [keyOk, hs]
      exact hak
    simp [getHandler, hsid, hko]
  · intro s ak body now store hs hak
    have hko : keyOk (some s) ak = false := by
      simp [keyOk, hs]
      exact hak
    simp [postHandler, hko]

theorem apikey_check_scope_witness :
    getHandler (some "secret") none none
        [("s1", (⟨"c", "js", "t", none, 3⟩ : StoredCode))] =
      GetResponse.index 1 ["s1"] ∧
    getHandler (some "secret") (some "wrong") (some "s1") [] = GetResponse.unauthorized ∧
    postHandler (some "secret") none ⟨some "c", some "js", some "t", some "s1", none⟩ 0 [] =
      (PostResponse.unauthorized, ([] : Store)) :=
  ⟨(apikey_check_scope.1 (some "secret") none _).1,
   apikey_check_scope.2.1 "secret" "s1" (some "wrong") [] (by decide) (by decide) (by decide),
   apikey_check_scope.2.2 "secret" none _ 0 [] (by decide) (by decide)⟩

/-! ## Claim C10: falsiness validation and the empty-code invariant -/

/-- C10: a POST is rejected with 400 not only when a required field is
absent but also when it is present and empty (the check is falsiness),
leaving the store unchanged; consequently any store whose entries all
carry nonempty code keeps that property across every POST, so a snapshot
with empty code is never stored. -/
theorem post_falsy_validation :
    (∀ (ek ak : Option String) (body : PostBody) (now : Nat) (store : Store),
       keyOk ek ak = true →
       (falsy body.code || falsy body.language || falsy body.timestamp ||
         falsy body.sessionId) = true →
       postHandler ek ak body now store = (PostResponse.badRequest, store)) ∧
    (∀ (ek ak : Option String) (body : PostBody) (now : Nat) (store : Store),
       (∀ e ∈ store, e.2.code ≠ "") →
       ∀ e ∈ (postHandler ek ak body now store).2, e.2.code ≠ "") := by
  constructor
  · intro ek ak body now store hkey hfalsy
    obtain ⟨oc, ol, ot, os, ou⟩ := body
    simp only [postHandler, hkey, Bool.false_eq_true, if_false]
    cases oc with
    | none => rfl
    | some c =>
      cases ol with
      | none => rfl
      | some l =>
        cases ot with
        | none => rfl
        | some t =>
          cases os with
          | none => rfl
          | some sid =>
            simp only [falsy, Bool.or_eq_true, decide_eq_true_eq] at hfalsy
            have : (c = "" || l = "" || t = "" || sid = "") = true := by
              simp only [Bool.or_eq_true, decide_eq_true_eq]
              tauto
            simp [this]
  · intro ek ak body now store hstore e he
    obtain ⟨oc, ol, ot, os, ou⟩ := body
    unfold postHandler at he
    split at he
    · exact hstore e he
    · split at he <;> try exact hstore e he
      split at he
      · exact hstore e he
      · rename_i hval
        simp only [Bool.or_eq_true, decide_eq_true_eq, not_or] at hval
        rcases mem_mapSet _ _ e store he with h1 | h1
        · rw [h1]
          exact hval.1.1.1
        · exact hstore e h1

theorem post_falsy_validation_witness :
    keyOk none none = true ∧
    (falsy (some "") || falsy (some "js") || falsy (some "t") || falsy (some "s1")) = true ∧
    postHandler none none ⟨some "", some "js", some "t", some "s1", none⟩ 0
        [("s0", (⟨"c", "js", "t", none, 1⟩ : StoredCode))] =
      (PostResponse.badRequest, [("s0", (⟨"c", "js", "t", none, 1⟩ : StoredCode))]) :=
  ⟨rfl, by decide,
   post_falsy_validation.1 none none ⟨some "", some "js", some "t", some "s1", none⟩ 0
     [("s0", (⟨"c", "js", "t", none, 1⟩ : StoredCode))] rfl (by decide)⟩

/-! ## Claim C1: the report route performs no schema validation -/

/-- C1 counterexample: a generator response whose extracted JSON object
is missing every required criterion, and one whose codingSkills score is
the out-of-range 0, are both answered 200 with the object passed through
verbatim as the report — not with a ParseError as the claim requires. -/
theorem report_route_missing_criteria_cex :
    parseReportResponse (("\x7b\"summary\":\"s\"\x7d").toList) =
      ReportResult.ok (Json.obj [((("summary").toList), Json.str (("s").toList))]) ∧
    validReport (Json.obj [((("summary").toList), Json.str (("s").toList))]) = false ∧
    reportHttpStatus
      (parseReportResponse (("\x7b\"summary\":\"s\"\x7d").toList)) = 200 ∧
    (∃ j, parseReportResponse
        (("\x7b\"grades\":\x7b\"codingSkills\":\x7b\"score\":0\x7d,\"communication\":\x7b\"score\":5\x7d,\"algorithmicThinking\":\x7b\"score\":5\x7d\x7d\x7d").toList) =
        ReportResult.ok j ∧
      validReport j = false) := by
  refine ⟨rfl, rfl, rfl, ⟨Json.obj [((("grades").toList), Json.obj
    [((("codingSkills").toList), Json.obj [((("score").toList), Json.num 0)]),
     ((("communication").toList), Json.obj [((("score").toList), Json.num 5)]),
     ((("algorithmicThinking").toList), Json.obj [((("score").toList), Json.num 5)])])],
    rfl, rfl⟩⟩

/-- C1 amended: the report route answers a ParseError (500 `Failed to
parse report` with the raw response truncated to 1000 characters)
exactly when no JSON span can be located or the span fails to parse; a
span that parses is returned verbatim as the report with no validation
of the required criteria or score ranges — in particular an invalid
report object still yields the 200 response, never a ParseError and
never a coerced or clamped report. -/
theorem report_route_no_validation (s span : List Char) (j : Json) :
    (extractJsonSpan s = some span → Json.parse span = some j → validReport j = false →
       parseReportResponse s = ReportResult.ok j ∧
       reportHttpStatus (parseReportResponse s) = 200) ∧
    (extractJsonSpan s = none →
       parseReportResponse s = ReportResult.parseError (s.take 1000) ∧
       reportHttpStatus (parseReportResponse s) = 500) ∧
    (extractJsonSpan s = some span → Json.parse span = none →
       parseReportResponse s = ReportResult.parseError (s.take 1000) ∧
       reportHttpStatus (parseReportResponse s) = 500) := by
  refine ⟨?_, ?_, ?_⟩
  · intro h1 h2 _
    have hr : parseReportResponse s = ReportResult.ok j := by
      unfold parseReportResponse
      rw [h1]
      show (match Json.parse span with
        | some j => ReportResult.ok j
        | none => ReportResult.parseError (s.take 1000)) = ReportResult.ok j
      rw [h2]
    exact ⟨hr, by rw [hr]; rfl⟩
  · intro h1
    have hr : parseReportResponse s = ReportResult.parseError (s.take 1000) := by
      unfold parseReportResponse
      rw [h1]
    exact ⟨hr, by rw [hr]; rfl⟩
  · intro h1 h2
    have hr : parseReportResponse s = ReportResult.parseError (s.take 1000) := by
      unfold parseReportResponse
      rw [h1]
      show (match Json.parse span with
        | some j => ReportResult.ok j
        | none => ReportResult.parseError (s.take 1000)) =
        ReportResult.parseError (s.take 1000)
      rw [h2]
    exact ⟨hr, by rw [hr]; rfl⟩

theorem report_route_no_validation_witness :
    extractJsonSpan (("\x7b\"summary\":\"s\"\x7d").toList) =
      some (("\x7b\"summary\":\"s\"\x7d").toList) ∧
    Json.parse (("\x7b\"summary\":\"s\"\x7d").toList) =
      some (Json.obj [((("summary").toList), Json.str (("s").toList))]) ∧
    validReport (Json.obj [((("summary").toList), Json.str (("s").toList))]) = false ∧
    parseReportResponse (("\x7b\"summary\":\"s\"\x7d").toList) =
      ReportResult.ok (Json.obj [((("summary").toList), Json.str (("s").toList))]) :=
  ⟨by decide, rfl, rfl,
   ((report_route_no_validation (("\x7b\"summary\":\"s\"\x7d").toList)
      (("\x7b\"summary\":\"s\"\x7d").toList)
      (Json.obj [((("summary").toList), Json.str (("s").toList))])).1
      (by decide) rfl rfl).1⟩

/-! ## Claim C2: extraction recovers the embedded JSON object -/

/-- C2 counterexample: a response in which the JSON object is preceded
by brace-free prose that itself contains a fenced block loses the
object — the first regex captures the prose block `hello`, the brace
scan finds no braces in it, and the route answers a ParseError instead
of recovering the embedded object. -/
theorem extraction_prose_fence_cex :
    (("```json\nhello\n``` \x7b\"a\":1\x7d").toList) =
      (("```json\nhello\n``` ").toList) ++ (("\x7b\"a\":1\x7d").toList) ∧
    '\x7b' ∉ (("```json\nhello\n``` ").toList) ∧
    '\x7d' ∉ (("```json\nhello\n``` ").toList) ∧
    Json.parse (("\x7b\"a\":1\x7d").toList) = some (Json.obj [(['a'], Json.num 1)]) ∧
    extractJsonSpan (("```json\nhello\n``` \x7b\"a\":1\x7d").toList) = none ∧
    parseReportResponse (("```json\nhello\n``` \x7b\"a\":1\x7d").toList) =
      ReportResult.parseError (("```json\nhello\n``` \x7b\"a\":1\x7d").toList) := by
  refine ⟨rfl, by decide, by decide, rfl, by decide, ?_⟩
  have h : extractJsonSpan (("```json\nhello\n``` \x7b\"a\":1\x7d").toList) = none := by
    decide
  unfold parseReportResponse
  rw [h]
  rfl

/-- C2 amended: for a generator response that embeds a JSON object text
`j` (one that `JSON.parse` accepts, delimited by its braces) and that is
(a) exactly `j`, with no ``` fence marker inside `j`, or (b) `j` wrapped
in a ```json fence, or in a plain ``` fence, whose body contains neither
the closing fence sequence nor (for the plain fence) a ```json opener,
or (c) `j` surrounded by prose holding no braces, with no ``` fence
marker anywhere in the response, the extraction step recovers exactly
`j` and `JSON.parse` of that span succeeds. -/
theorem extraction_recovers_embedded_object (mid pre post : List Char) (v : Json)
    (hparse : Json.parse ('\x7b' :: mid ++ ['\x7d']) = some v) :
    (findSub ticks ('\x7b' :: mid ++ ['\x7d']) = none →
       extractJsonSpan ('\x7b' :: mid ++ ['\x7d']) = some ('\x7b' :: mid ++ ['\x7d'])) ∧
    (findSub closeFence ('\x7b' :: mid ++ ['\x7d']) = none →
       extractJsonSpan (ticksJson ++ '\n' :: (('\x7b' :: mid ++ ['\x7d']) ++ closeFence)) =
         some ('\x7b' :: mid ++ ['\x7d'])) ∧
    (findSub closeFence ('\x7b' :: mid ++ ['\x7d']) = none →
     findSub ticksJson ('\x7b' :: mid ++ ['\x7d']) = none →
       extractJsonSpan (ticks ++ '\n' :: (('\x7b' :: mid ++ ['\x7d']) ++ closeFence)) =
         some ('\x7b' :: mid ++ ['\x7d'])) ∧
    ('\x7b' ∉ pre → '\x7d' ∉ pre → '\x7b' ∉ post → '\x7d' ∉ post →
     findSub ticks (pre ++ ('\x7b' :: mid ++ ['\x7d']) ++ post) = none →
       extractJsonSpan (pre ++ ('\x7b' :: mid ++ ['\x7d']) ++ post) =
         some ('\x7b' :: mid ++ ['\x7d'])) ∧
    Json.parse ('\x7b' :: mid ++ ['\x7d']) = some v := by
  refine ⟨extract_pure mid, extract_fenced_json mid,
    extract_fenced_plain mid, ?_, hparse⟩
  intro hpre _ _ hpost hnt
  exact extract_prose pre mid post hpre hpost hnt

theorem extraction_recovers_embedded_object_witness :
    Json.parse ('\x7b' :: (("\"a\":1").toList) ++ ['\x7d']) =
      some (Json.obj [(['a'], Json.num 1)]) ∧
    extractJsonSpan ((("Result: ").toList) ++
        ('\x7b' :: (("\"a\":1").toList) ++ ['\x7d']) ++ ((" Done.").toList)) =
      some ('\x7b' :: (("\"a\":1").toList) ++ ['\x7d']) ∧
    extractJsonSpan (ticksJson ++ '\n' ::
        (('\x7b' :: (("\"a\":1").toList) ++ ['\x7d']) ++ closeFence)) =
      some ('\x7b' :: (("\"a\":1").toList) ++ ['\x7d']) :=
  ⟨rfl,
   (extraction_recovers_embedded_object (("\"a\":1").toList) (("Result: ").toList)
      ((" Done.").toList) (Json.obj [(['a'], Json.num 1)]) rfl).2.2.2.1
     (by decide) (by decide) (by decide) (by decide) (by decide),
   (extraction_recovers_embedded_object (("\"a\":1").toList) (("Result: ").toList)
      ((" Done.").toList) (Json.obj [(['a'], Json.num 1)]) rfl).2.1 (by decide)⟩

end HackInterview
